import Mathlib

/-!
Verification development for the RSS news aggregation pipeline
(NewsScraper in src/scraper/news_scraper.py, plus src/utils/url_normalize.py).

Strings are modelled as lists of characters (Python str); Python None /
missing attributes are modelled with Option; timestamps are modelled as
abstract natural numbers; the single network probe used by image-URL
validation is modelled as an oracle function passed explicitly.  Scanning
loops that are not structurally recursive on the string are written with an
explicit fuel argument initialised to the string length; every step of such
a scan consumes at least one character, so the fuel never runs out and the
definitions compute the same function as the Python loops they mirror.
-/

abbrev Str := List Char

/-- Characters treated as whitespace by Python str.split and str.strip
(ASCII fragment: space, tab, newline, vertical tab, form feed, carriage
return). -/
def isPySpace (c : Char) : Bool :=
  c == ' ' || c == '\t' || c == '\n' || c == Char.ofNat 11 || c == Char.ofNat 12 || c == '\r'

/-- Python str.lower, characterwise. -/
def listToLower (s : Str) : Str := s.map Char.toLower

/-- Python str.strip (): drop leading and trailing whitespace. -/
def pyStrip (s : Str) : Str :=
  ((s.dropWhile isPySpace).reverse.dropWhile isPySpace).reverse

/-- Python str.split (): split on whitespace runs, discarding empty pieces. -/
def pySplit (s : Str) : List Str :=
  (s.splitOnP isPySpace).filter (fun w => w != [])

/-- Python " ".join (s.split ()): collapse whitespace runs to single spaces
and trim the ends. -/
def collapseWs (s : Str) : Str := List.intercalate [' '] (pySplit s)

/-- Python substring containment (the in operator on str): pat occurs
contiguously in s. -/
def hasSub (pat : Str) : Str → Bool
  | [] => pat.isPrefixOf []
  | c :: rest => pat.isPrefixOf (c :: rest) || hasSub pat rest

/-- One pass of re.sub applied to the pattern matching a < followed by one
or more characters other than > and a closing >.  At each position: a
non-< character is kept; at a < the scan looks for the first subsequent >;
when it exists with at least one character in between, the whole tag is
removed and scanning resumes after the >, otherwise the < is kept and
scanning resumes at the next character.  The fuel argument decreases by
one per step while at least one character is consumed, so fuel = length
suffices. -/
def stripTagsF : Nat → Str → Str
  | 0, s => s
  | _ + 1, [] => []
  | f + 1, c :: rest =>
    if c == '<' then
      match rest.span (fun x => x != '>') with
      | (pre, _ :: tail) =>
        if pre == [] then c :: stripTagsF f rest else stripTagsF f tail
      | (_, []) => c :: stripTagsF f rest
    else c :: stripTagsF f rest

/-- Python re.sub applied with pattern <[^>]+> and empty replacement, as
used to strip markup from entry bodies. -/
def stripTags (s : Str) : Str := stripTagsF s.length s

/-- Python str.replace with needle "www." and empty replacement: every
non-overlapping occurrence is removed, scanning left to right.  Fuel =
length suffices since each step consumes at least one character. -/
def removeWwwAllF : Nat → Str → Str
  | 0, s => s
  | _ + 1, [] => []
  | f + 1, c :: rest =>
    if ("www.".toList).isPrefixOf (c :: rest) then
      removeWwwAllF f ((c :: rest).drop 4)
    else c :: removeWwwAllF f rest

/-- Python domain.replace applied with "www." and empty replacement. -/
def removeWwwAll (s : Str) : Str := removeWwwAllF s.length s

/-- Characters urllib accepts inside a URL scheme. -/
def isSchemeChar (c : Char) : Bool :=
  c.isAlpha || c.isDigit || c == '+' || c == '-' || c == '.'

/-- The scheme-splitting step of urllib.parse.urlparse: when every
character before the first colon is a scheme character and the first is a
letter, the scheme (lowercased) is split off; otherwise no scheme. -/
def splitScheme (s : Str) : Option (Str × Str) :=
  match s.span isSchemeChar with
  | (pre, ':' :: r) =>
    match pre with
    | [] => none
    | c :: _ => if c.isAlpha then some (listToLower pre, r) else none
  | _ => none

/-- Scheme and remainder of a URL, with empty scheme when none parses. -/
def schemeAndRest (s : Str) : Str × Str :=
  match splitScheme s with
  | some p => p
  | none => ([], s)

/-- Python urlparse(s).scheme. -/
def urlparseScheme (s : Str) : Str := (schemeAndRest s).1

/-- Python urlparse(s).netloc: present only after a double slash, running
up to the first slash, question mark or hash. -/
def urlparseNetloc (s : Str) : Str :=
  match (schemeAndRest s).2 with
  | '/' :: '/' :: t => t.takeWhile (fun c => !(c == '/' || c == '?' || c == '#'))
  | _ => []

/-- NewsScraper._get_domain: netloc of the URL with every occurrence of
"www." removed (str.replace removes all occurrences, not only a leading
one).  The source wraps this in a try/except returning "Unknown", but the
modelled parse is total so that branch is unreachable here. -/
def getDomain (url : Str) : Str := removeWwwAll (urlparseNetloc url)

/-- The case-insensitive regular-expression test used by
normalize_rss_url: does the URL contain rss, feed or xml? -/
def feedLike (u : Str) : Bool :=
  let l := listToLower u
  hasSub ("rss".toList) l || hasSub ("feed".toList) l || hasSub ("xml".toList) l

/-- The first two steps of normalize_rss_url: strip the raw string and
prepend https when no http or https protocol is present. -/
def withProto (raw : Str) : Str :=
  let url := pyStrip raw
  if ("http://".toList).isPrefixOf url || ("https://".toList).isPrefixOf url then url
  else "https://".toList ++ url

/-- normalize_rss_url from src/utils/url_normalize.py: strip, ensure an
http or https protocol, return unchanged when the URL already looks like a
feed, otherwise append rss or /rss. -/
def normalize_rss_url (raw : Str) : Str :=
  let url := withProto raw
  if feedLike url then url
  else if (['/'] : Str).isSuffixOf url then url ++ "rss".toList
  else url ++ "/rss".toList

example : stripTags ("a<b>c".toList) = "ac".toList := by decide
example : stripTags ("a<>c<".toList) = "a<>c<".toList := by decide
example : stripTags ("x<a<b>y>".toList) = "xy>".toList := by decide
example : collapseWs ("  a  b ".toList) = "a b".toList := by decide
example : removeWwwAll ("foo.www.bar.www.com".toList) = "foo.bar.com".toList := by decide
example : urlparseNetloc ("http://www.ex.com:80/p?q".toList) = "www.ex.com:80".toList := by decide
example : urlparseScheme ("HTTP://x".toList) = "http".toList := by decide
example : urlparseNetloc ("ex.com/rss".toList) = ([] : Str) := by decide
example : normalize_rss_url (" ex.com ".toList) = "https://ex.com/rss".toList := by decide
example : normalize_rss_url ("http://ex.com/feed".toList) = "http://ex.com/feed".toList := by decide
example : normalize_rss_url ("ex.com/".toList) = "https://ex.com/rss".toList := by decide

/-- One enclosure of a feed entry.  Option models a missing attribute or a
Python None value. -/
structure Enclosure where
  etype : Option Str
  href : Option Str
deriving DecidableEq

/-- One media:thumbnail dictionary of a feed entry. -/
structure MediaThumb where
  url : Option Str
deriving DecidableEq

/-- One media:content dictionary of a feed entry. -/
structure MediaContent where
  mtype : Option Str
  url : Option Str
deriving DecidableEq

/-- One alternate-content block of a feed entry (entry.content items). -/
structure ContentItem where
  ctype : Option Str
  value : Str
deriving DecidableEq

/-- A raw feed entry as handed over by the feed parser.  Missing keys and
missing attributes are none; list-valued attributes that are absent are
modelled as the empty list (both are falsy in the source). -/
structure RawEntry where
  title : Option Str := none
  summary : Option Str := none
  description : Option Str := none
  link : Option Str := none
  published : Option Str := none
  updated : Option Str := none
  pubDate : Option Str := none
  published_parsed : Option Nat := none
  updated_parsed : Option Nat := none
  enclosures : List Enclosure := []
  media_thumbnail : List MediaThumb := []
  media_content : List MediaContent := []
  content : List ContentItem := []
deriving DecidableEq

/-- The canonical news item dictionary built by _process_entry. -/
structure NewsItem where
  title : Str
  summary : Str
  url : Str
  keyword : Str
  published_date : Nat
  source : Str
  image_url : Option Str
  scraped_at : Nat
deriving DecidableEq

/-- The network oracle for the image-validation HEAD request: the declared
content type of the response, or none when the request fails. -/
abbrev HeadOracle := Str → Option Str

/-- The double quote and single quote characters accepted by the img-src
pattern. -/
def quoteChar (c : Char) : Bool := c == '"' || c == Char.ofNat 39

/-- Matching of src= plus a quoted value at the start of u, mirroring the
tail of the pattern: the literal src= (case-insensitive), one quote of
either kind, one or more characters that are not quotes (the capture), and
one closing quote of either kind. -/
def srcCapture (u : Str) : Option Str :=
  if listToLower (u.take 4) == "src=".toList then
    match u.drop 4 with
    | q :: v =>
      if quoteChar q then
        let cap := v.takeWhile (fun c => !quoteChar c)
        if cap != [] then
          match v.drop cap.length with
          | c :: _ => if quoteChar c then some cap else none
          | [] => none
        else none
      else none
    | [] => none
  else none

/-- Backtracking over the one-or-more non-> characters of the img pattern,
longest first (the regex + is greedy): k counts down the number of
characters consumed between the img literal and src=. -/
def tryFromK (t : Str) : Nat → Option Str
  | 0 => none
  | k + 1 =>
    match srcCapture (t.drop (k + 1)) with
    | some cap => some cap
    | none => tryFromK t k

/-- Attempted match of the img pattern directly after a <img literal whose
remaining text is t. -/
def imgSrcAt (t : Str) : Option Str :=
  tryFromK t ((t.takeWhile (fun c => c != '>')).length)

/-- Python re.findall applied with the img-src pattern, first capture
(matches[0]): scan left to right; at each position starting with <img
(case-insensitive) try the match; the first position that succeeds wins. -/
def findFirstImg : Str → Option Str
  | [] => none
  | c :: rest =>
    if listToLower ((c :: rest).take 4) == "<img".toList then
      match imgSrcAt rest with
      | some cap => some cap
      | none => findFirstImg rest
    else findFirstImg rest

/-- The image extensions accepted without a network probe. -/
def validImageExts : List Str :=
  [".jpg".toList, ".jpeg".toList, ".png".toList, ".webp".toList, ".gif".toList]

/-- NewsScraper._is_valid_image_url: require an absolute http or https
URL; accept immediately on a known image extension of the lowercased URL
with the query string removed; otherwise probe the oracle and accept when
the declared content type starts with image/. -/
def isValidImageUrl (oracle : HeadOracle) (u : Str) : Bool :=
  if u != [] && (("http://".toList).isPrefixOf u || ("https://".toList).isPrefixOf u) then
    let cleanUrl := (listToLower u).takeWhile (fun c => c != '?')
    if validImageExts.any (fun ext => ext.isSuffixOf cleanUrl) then true
    else
      match oracle u with
      | none => false
      | some ct => ("image/".toList).isPrefixOf (listToLower ct)
  else false

/-- First enclosure whose declared type is truthy and contains image
(the loop of method 1 in _extract_image_url). -/
def findImageEnclosure (l : List Enclosure) : Option Enclosure :=
  l.find? (fun enc => hasSub ("image".toList) (enc.etype.getD []))

/-- First media:content dictionary whose type contains image (the loop of
method 3 in _extract_image_url). -/
def findImageMedia (l : List MediaContent) : Option MediaContent :=
  l.find? (fun m => hasSub ("image".toList) (m.mtype.getD []))

/-- Method 1 of _extract_image_url: enclosures.  A found enclosure without
an href attribute raises (Except.error), mirroring the AttributeError
caught by the surrounding try. -/
def method1 (e : RawEntry) : Except Unit Str :=
  match findImageEnclosure e.enclosures with
  | none => Except.ok []
  | some enc =>
    match enc.href with
    | none => Except.error ()
    | some h => Except.ok h

/-- Method 2 of _extract_image_url: the first media:thumbnail dictionary,
entered only while the candidate is still empty; a missing url key raises. -/
def method2 (e : RawEntry) (u : Str) : Except Unit Str :=
  if u != [] then Except.ok u
  else
    match e.media_thumbnail with
    | [] => Except.ok u
    | t :: _ =>
      match t.url with
      | none => Except.error ()
      | some v => Except.ok v

/-- Method 3 of _extract_image_url: media:content entries with an image
type; a missing url key raises. -/
def method3 (e : RawEntry) (u : Str) : Except Unit Str :=
  if u != [] then Except.ok u
  else
    match findImageMedia e.media_content with
    | none => Except.ok u
    | some m =>
      match m.url with
      | none => Except.error ()
      | some v => Except.ok v

/-- The body text used by _process_entry and by method 4 of
_extract_image_url: the summary key when truthy, else the description key
(entry.get with empty default, combined by the or operator). -/
def rawBody (e : RawEntry) : Str :=
  if e.summary.getD [] != [] then e.summary.getD [] else e.description.getD []

/-- Method 4 of _extract_image_url: first img src inside the raw
summary/description HTML; the candidate is kept unchanged when the text is
empty or no match is found. -/
def method4 (e : RawEntry) (u : Str) : Str :=
  if u != [] then u
  else
    let c := rawBody e
    if c != [] then
      match findFirstImg c with
      | some cap => cap
      | none => u
    else u

/-- The loop of method 5 of _extract_image_url over entry.content: the
first text/html block that yields an img-src match wins; a block without a
type attribute raises when reached. -/
def method5core : List ContentItem → Except Unit (Option Str)
  | [] => Except.ok none
  | c :: cs =>
    match c.ctype with
    | none => Except.error ()
    | some t =>
      if t = "text/html".toList then
        match findFirstImg c.value with
        | some cap => Except.ok (some cap)
        | none => method5core cs
      else method5core cs

/-- Method 5 of _extract_image_url, entered only while the candidate is
still empty. -/
def method5 (e : RawEntry) (u : Str) : Except Unit Str :=
  if u != [] then Except.ok u
  else (method5core e.content).map (fun r => r.getD u)

/-- Relative-URL repair in _extract_image_url: a protocol-relative URL
gets https, a root-relative URL is resolved against the scheme and netloc
of the entry link when the entry has one. -/
def repairUrl (e : RawEntry) (u : Str) : Str :=
  if ("//".toList).isPrefixOf u then "https:".toList ++ u
  else if (['/'] : Str).isPrefixOf u then
    match e.link with
    | some l => urlparseScheme l ++ "://".toList ++ urlparseNetloc l ++ u
    | none => u
  else u

/-- NewsScraper._extract_image_url before exception handling: the five
candidate sources in order, first non-empty candidate wins, then repair
and validation of that single candidate. -/
def extractImageE (oracle : HeadOracle) (e : RawEntry) : Except Unit (Option Str) :=
  match method1 e with
  | Except.error u => Except.error u
  | Except.ok u1 =>
    match method2 e u1 with
    | Except.error u => Except.error u
    | Except.ok u2 =>
      match method3 e u2 with
      | Except.error u => Except.error u
      | Except.ok u3 =>
        match method5 e (method4 e u3) with
        | Except.error u => Except.error u
        | Except.ok u5 =>
          if u5 != [] then
            if isValidImageUrl oracle (repairUrl e u5) then
              Except.ok (some (repairUrl e u5))
            else Except.ok none
          else Except.ok none

/-- NewsScraper._extract_image_url: any internal fault is caught and
yields no image. -/
def extractImage (oracle : HeadOracle) (e : RawEntry) : Option Str :=
  match extractImageE oracle e with
  | Except.ok r => r
  | Except.error _ => none

example : findFirstImg ("<p><IMG class=x SRC=\"http://a/b.png\"></p>".toList)
    = some ("http://a/b.png".toList) := by decide
example : findFirstImg ("<img src=>".toList) = none := by decide
example : findFirstImg ("<img a src=\"u\" b src=\"v\">".toList) = some ("v".toList) := by decide
example : isValidImageUrl (fun _ => none) ("http://a/b.JPG?x=1".toList) = true := by decide
example : isValidImageUrl (fun _ => some ("image/png".toList)) ("https://a/b".toList) = true := by decide
example : isValidImageUrl (fun _ => none) ("//a/b.png".toList) = false := by decide

/-- Truthiness of an optional string (Python: None and the empty string
are falsy). -/
def truthy (o : Option Str) : Bool := o.getD [] != []

/-- Truthiness of date_str in _parse_date: published or updated or pubDate
holds a non-empty string. -/
def hasRawDate (e : RawEntry) : Bool :=
  truthy e.published || truthy e.updated || truthy e.pubDate

/-- NewsScraper._parse_date: when some raw date string is truthy, use the
published pre-parsed tuple, else the updated pre-parsed tuple, else the
current time; with no truthy raw date string the current time is returned
directly. -/
def parseDate (e : RawEntry) (now : Nat) : Nat :=
  if hasRawDate e then
    match e.published_parsed with
    | some t => t
    | none =>
      match e.updated_parsed with
      | some t => t
      | none => now
  else now

/-- The trimmed title used by _process_entry. -/
def entryTitle (e : RawEntry) : Str := pyStrip (e.title.getD [])

/-- The cleaned body used by _process_entry: markup stripped, whitespace
collapsed. -/
def entryBody (e : RawEntry) : Str := collapseWs (stripTags (rawBody e))

/-- The lowercased concatenation of title, one space and cleaned body that
_process_entry scans for keywords. -/
def combinedText (e : RawEntry) : Str :=
  listToLower (entryTitle e ++ [' '] ++ entryBody e)

/-- The placeholder summary for an empty body. -/
def placeholderSummary : Str := "Click to read more...".toList

/-- The truncated summary built by _process_entry: first 200 characters
plus an ellipsis marker when longer, placeholder when empty. -/
def cleanSummary (body : Str) : Str :=
  if body != [] then
    if 200 < body.length then body.take 200 ++ "...".toList else body
  else placeholderSummary

/-- NewsScraper._process_entry: reject on empty title or link, reject on a
title shorter than 10 characters, reject when no keyword occurs in the
lowercased title plus body, otherwise build the news item. -/
def processEntry (oracle : HeadOracle) (now : Nat) (keywords : List Str)
    (feedUrl : Str) (e : RawEntry) : Option NewsItem :=
  let title := entryTitle e
  let link := pyStrip (e.link.getD [])
  if title = [] || link = [] then none
  else if title.length < 10 then none
  else
    match keywords.find? (fun k => hasSub (listToLower k) (combinedText e)) with
    | none => none
    | some kw =>
      some
        { title := title
          summary := cleanSummary (entryBody e)
          url := link
          keyword := kw
          published_date := parseDate e now
          source := getDomain feedUrl
          image_url := extractImage oracle e
          scraped_at := now }

/-- One feed source: its URL and either the parsed entry list or none when
fetching or parsing this feed raises an exception. -/
structure Feed where
  url : Str
  entries : Option (List RawEntry)

/-- Descending order on published dates, the key order used by both sort
calls of scrape_news (reverse=True). -/
def dateGE (a b : NewsItem) : Prop := b.published_date ≤ a.published_date

instance : DecidableRel dateGE := fun a b =>
  inferInstanceAs (Decidable (b.published_date ≤ a.published_date))

instance : IsTotal NewsItem dateGE :=
  ⟨fun a b => Nat.le_total b.published_date a.published_date⟩

instance : IsTrans NewsItem dateGE :=
  ⟨fun _ _ _ hab hbc => Nat.le_trans hbc hab⟩

/-- The inner entry loop of scrape_news over one feed: process each entry,
skip rejected entries and entries whose URL is already in the horizon,
append fresh items while recording their URLs, and stop as soon as the
local list reaches max_results. -/
def collectEntries (oracle : HeadOracle) (now : Nat) (keywords : List Str)
    (feedUrl : Str) (maxResults : Nat) :
    List RawEntry → List NewsItem → List Str → List NewsItem × List Str
  | [], acc, urls => (acc, urls)
  | e :: es, acc, urls =>
    match processEntry oracle now keywords feedUrl e with
    | none => collectEntries oracle now keywords feedUrl maxResults es acc urls
    | some item =>
      if item.url ∈ urls then
        collectEntries oracle now keywords feedUrl maxResults es acc urls
      else
        let acc2 := acc ++ [item]
        let urls2 := item.url :: urls
        if maxResults ≤ acc2.length then (acc2, urls2)
        else collectEntries oracle now keywords feedUrl maxResults es acc2 urls2

/-- The outer feed loop of scrape_news: stop once the running total
reaches the target, skip a feed whose fetch raises, otherwise examine at
most max_results * 3 entries, sort the local list by date descending and
merge its first max_results items. -/
def scrapeLoop (oracle : HeadOracle) (now : Nat) (keywords : List Str)
    (maxResults target : Nat) :
    List Feed → List NewsItem → List Str → List NewsItem × List Str
  | [], acc, urls => (acc, urls)
  | f :: fs, acc, urls =>
    if target ≤ acc.length then (acc, urls)
    else
      match f.entries with
      | none => scrapeLoop oracle now keywords maxResults target fs acc urls
      | some es =>
        let p := collectEntries oracle now keywords f.url maxResults
          (es.take (maxResults * 3)) [] urls
        let sorted := List.insertionSort dateGE p.1
        scrapeLoop oracle now keywords maxResults target fs
          (acc ++ sorted.take maxResults) p.2

/-- NewsScraper.scrape_news: run the feed loop from the given dedup
horizon, sort everything by date descending and truncate to
max_results * number of keywords; returns the result list together with
the updated horizon (self.scraped_urls). -/
def scrapeNews (oracle : HeadOracle) (now : Nat) (keywords : List Str)
    (feeds : List Feed) (maxResults : Nat) (urls : List Str) :
    List NewsItem × List Str :=
  let target := maxResults * keywords.length
  let p := scrapeLoop oracle now keywords maxResults target feeds [] urls
  ((List.insertionSort dateGE p.1).take target, p.2)

/-- NewsScraper.clear_cache: the horizon is emptied. -/
def clearCache (_ : List Str) : List Str := []

/-- The arguments of one scrape_news call in a call sequence on one
NewsScraper instance. -/
structure CallArgs where
  oracle : HeadOracle
  now : Nat
  keywords : List Str
  feeds : List Feed
  maxResults : Nat

/-- A sequence of scrape_news calls on one instance, threading the dedup
horizon: the list of result lists and the final horizon. -/
def runCalls (st : List Str) : List CallArgs → List (List NewsItem) × List Str
  | [] => ([], st)
  | c :: cs =>
    let p := scrapeNews c.oracle c.now c.keywords c.feeds c.maxResults st
    let q := runCalls p.2 cs
    (p.1 :: q.1, q.2)

/-- Modelled from the spec: the source field the specification promises,
namely the registrable domain of the feed URL with one leading www.
stripped; the registrable domain is read as the URL host (netloc), the
most lenient reading available without a public-suffix table. -/
def specSource (url : Str) : Str :=
  let d := urlparseNetloc url
  if ("www.".toList).isPrefixOf d then d.drop 4 else d

/-- Characterisation of a successful find?: the list splits at the found
element, the predicate holds there and fails on everything before it. -/
theorem find?_eq_some_split {α : Type} {p : α → Bool} :
    ∀ {l : List α} {a : α}, l.find? p = some a →
    ∃ l1 l2, l = l1 ++ a :: l2 ∧ p a = true ∧ ∀ x ∈ l1, p x = false := by
  intro l
  induction l with
  | nil => intro a h; simp [List.find?] at h
  | cons b t ih =>
    intro a h
    by_cases hb : p b = true
    · rw [List.find?_cons_of_pos t hb] at h
      cases h
      exact ⟨[], t, rfl, hb, by simp⟩
    · rw [List.find?_cons_of_neg t hb] at h
      obtain ⟨l1, l2, hsplit, hpa, hprev⟩ := ih h
      refine ⟨b :: l1, l2, by rw [hsplit]; rfl, hpa, ?_⟩
      intro x hx
      rcases List.mem_cons.mp hx with rfl | hx2
      · simpa using hb
      · exact hprev x hx2

/-- C3: every list returned by scrape_news is non-increasing in
published_date from first to last (most recent first): the final sort by
date descending happens after all feeds are merged and before truncation. -/
theorem claim_C3_ordering (oracle : HeadOracle) (now : Nat) (kw : List Str)
    (feeds : List Feed) (maxR : Nat) (st : List Str) :
    List.Pairwise (fun a b : NewsItem => b.published_date ≤ a.published_date)
      (scrapeNews oracle now kw feeds maxR st).1 := by
  have h := List.sorted_insertionSort dateGE
    (scrapeLoop oracle now kw maxR (maxR * kw.length) feeds [] st).1
  exact List.Pairwise.sublist (List.take_sublist _ _) h

/-- C2: the result of scrape_news never exceeds max_results multiplied by
the number of keywords, and an empty keyword list or an empty feed list
yields an empty result (the function is total, so no error can escape). -/
theorem claim_C2_cap (oracle : HeadOracle) (now : Nat) (kw : List Str)
    (feeds : List Feed) (maxR : Nat) (st : List Str) :
    (scrapeNews oracle now kw feeds maxR st).1.length ≤ maxR * kw.length ∧
    (kw = [] → (scrapeNews oracle now kw feeds maxR st).1 = []) ∧
    (feeds = [] → (scrapeNews oracle now kw feeds maxR st).1 = []) := by
  refine ⟨List.length_take_le _ _, ?_, ?_⟩
  · intro h; subst h; simp [scrapeNews]
  · intro h; subst h; simp [scrapeNews, scrapeLoop]

/-- Witness for C2 at concrete inputs: both empty-configuration cases. -/
theorem claim_C2_witness :
    (scrapeNews (fun _ => none) 0 [] [⟨"http://x.com/rss".toList, some []⟩] 3 []).1 = [] ∧
    (scrapeNews (fun _ => none) 0 ["a".toList] [] 3 []).1 = [] :=
  ⟨(claim_C2_cap (fun _ => none) 0 [] [⟨"http://x.com/rss".toList, some []⟩] 3 []).2.1 rfl,
   (claim_C2_cap (fun _ => none) 0 ["a".toList] [] 3 []).2.2 rfl⟩

/-- Once the running total meets the target, the feed loop stops no matter
which feeds remain. -/
theorem scrapeLoop_of_done (oracle : HeadOracle) (now : Nat) (kw : List Str)
    (m t : Nat) (fs : List Feed) (acc : List NewsItem) (urls : List Str)
    (h : t ≤ acc.length) :
    scrapeLoop oracle now kw m t fs acc urls = (acc, urls) := by
  cases fs with
  | nil => rfl
  | cons f fs => simp [scrapeLoop, h]

/-- The feed loop ignores feeds whose fetch raises: it computes the same
answer as the loop over the successfully fetched feeds only. -/
theorem scrapeLoop_filter_ok (oracle : HeadOracle) (now : Nat) (kw : List Str)
    (m t : Nat) :
    ∀ (fs : List Feed) (acc : List NewsItem) (urls : List Str),
    scrapeLoop oracle now kw m t fs acc urls =
      scrapeLoop oracle now kw m t (fs.filter (fun f => f.entries.isSome)) acc urls := by
  intro fs
  induction fs with
  | nil => intro acc urls; rfl
  | cons f fs ih =>
    intro acc urls
    by_cases hb : t ≤ acc.length
    · rw [scrapeLoop_of_done _ _ _ _ _ _ _ _ hb,
        scrapeLoop_of_done _ _ _ _ _ _ _ _ hb]
    · cases hf : f.entries with
      | none =>
        have hfil : (f :: fs).filter (fun f => f.entries.isSome) =
            fs.filter (fun f => f.entries.isSome) := by
          simp [List.filter, hf]
        rw [hfil]
        simp only [scrapeLoop, hf]
        rw [if_neg hb]
        exact ih acc urls
      | some es =>
        have hfil : (f :: fs).filter (fun f => f.entries.isSome) =
            f :: fs.filter (fun f => f.entries.isSome) := by
          simp [List.filter, hf]
        rw [hfil]
        simp only [scrapeLoop, hf]
        rw [if_neg hb, if_neg hb]
        exact ih _ _

/-- C4: an exception while fetching or processing one feed only skips
that feed: scrape_news computes exactly what it would compute on the list
with the failing feeds removed, so items collected from other feeds are
retained and (the function being total) no exception escapes. -/
theorem claim_C4_feed_failure (oracle : HeadOracle) (now : Nat) (kw : List Str)
    (feeds : List Feed) (maxR : Nat) (st : List Str) :
    scrapeNews oracle now kw feeds maxR st =
      scrapeNews oracle now kw (feeds.filter (fun f => f.entries.isSome)) maxR st := by
  simp only [scrapeNews]
  rw [scrapeLoop_filter_ok]

/-- Invariant of the inner entry loop: the horizon only grows, every
collected item's URL lands in the final horizon, collected URLs stay
pairwise distinct, and every newly collected item's URL was outside the
incoming horizon. -/
theorem collect_inv (oracle : HeadOracle) (now : Nat) (kw : List Str)
    (furl : Str) (m : Nat) :
    ∀ (es : List RawEntry) (acc : List NewsItem) (urls : List Str),
    (∀ a ∈ acc, a.url ∈ urls) → ((acc.map NewsItem.url).Nodup) →
    (∀ u ∈ urls, u ∈ (collectEntries oracle now kw furl m es acc urls).2) ∧
    (∀ a ∈ (collectEntries oracle now kw furl m es acc urls).1,
        a.url ∈ (collectEntries oracle now kw furl m es acc urls).2) ∧
    ((collectEntries oracle now kw furl m es acc urls).1.map NewsItem.url).Nodup ∧
    (∀ a ∈ (collectEntries oracle now kw furl m es acc urls).1, a ∈ acc ∨ a.url ∉ urls) := by
  intro es
  induction es with
  | nil =>
    intro acc urls h1 h2
    simp only [collectEntries]
    exact ⟨fun u hu => hu, h1, h2, fun a ha => Or.inl ha⟩
  | cons e es ih =>
    intro acc urls h1 h2
    cases hpe : processEntry oracle now kw furl e with
    | none =>
      simp only [collectEntries, hpe]
      exact ih acc urls h1 h2
    | some item =>
      by_cases hmem : item.url ∈ urls
      · simp only [collectEntries, hpe, if_pos hmem]
        exact ih acc urls h1 h2
      · have hpre1 : ∀ a ∈ acc ++ [item], a.url ∈ item.url :: urls := by
          intro a ha
          rcases List.mem_append.mp ha with ha | ha
          · exact List.mem_cons_of_mem _ (h1 a ha)
          · rw [List.mem_singleton.mp ha]
            exact List.mem_cons_self _ _
        have hpre2 : ((acc ++ [item]).map NewsItem.url).Nodup := by
          rw [List.map_append]
          refine List.Nodup.append h2 (by simp) ?_
          intro x hx hy
          rcases List.mem_map.mp hx with ⟨a, ha, rfl⟩
          have hau : a.url ∈ urls := h1 a ha
          have hxe : a.url = item.url := by simpa using hy
          exact hmem (hxe ▸ hau)
        by_cases hcap : m ≤ (acc ++ [item]).length
        · simp only [collectEntries, hpe, if_neg hmem, if_pos hcap]
          refine ⟨fun u hu => List.mem_cons_of_mem _ hu, hpre1, hpre2, ?_⟩
          intro a ha
          rcases List.mem_append.mp ha with ha | ha
          · exact Or.inl ha
          · rw [List.mem_singleton.mp ha]
            exact Or.inr hmem
        · simp only [collectEntries, hpe, if_neg hmem, if_neg hcap]
          obtain ⟨g1, g2, g3, g4⟩ := ih (acc ++ [item]) (item.url :: urls) hpre1 hpre2
          refine ⟨fun u hu => g1 u (List.mem_cons_of_mem _ hu), g2, g3, ?_⟩
          intro a ha
          rcases g4 a ha with hin | hnin
          · rcases List.mem_append.mp hin with h | h
            · exact Or.inl h
            · rw [List.mem_singleton.mp h]
              exact Or.inr hmem
          · exact Or.inr (fun hc => hnin (List.mem_cons_of_mem _ hc))

/-- Invariant of the outer feed loop, analogous to the entry-loop
invariant: horizon growth, emitted URLs recorded in the horizon, pairwise
distinct URLs in the accumulated list, and freshness of new items against
the incoming horizon. -/
theorem loop_inv (oracle : HeadOracle) (now : Nat) (kw : List Str) (m t : Nat) :
    ∀ (fs : List Feed) (acc : List NewsItem) (urls : List Str),
    (∀ a ∈ acc, a.url ∈ urls) → ((acc.map NewsItem.url).Nodup) →
    (∀ u ∈ urls, u ∈ (scrapeLoop oracle now kw m t fs acc urls).2) ∧
    (∀ a ∈ (scrapeLoop oracle now kw m t fs acc urls).1,
        a.url ∈ (scrapeLoop oracle now kw m t fs acc urls).2) ∧
    ((scrapeLoop oracle now kw m t fs acc urls).1.map NewsItem.url).Nodup ∧
    (∀ a ∈ (scrapeLoop oracle now kw m t fs acc urls).1, a ∈ acc ∨ a.url ∉ urls) := by
  intro fs
  induction fs with
  | nil =>
    intro acc urls h1 h2
    simp only [scrapeLoop]
    exact ⟨fun u hu => hu, h1, h2, fun a ha => Or.inl ha⟩
  | cons f fs ih =>
    intro acc urls h1 h2
    by_cases hb : t ≤ acc.length
    · simp only [scrapeLoop, if_pos hb]
      exact ⟨fun u hu => hu, h1, h2, fun a ha => Or.inl ha⟩
    · cases hf : f.entries with
      | none =>
        simp only [scrapeLoop, if_neg hb, hf]
        exact ih acc urls h1 h2
      | some es =>
        simp only [scrapeLoop, if_neg hb, hf]
        obtain ⟨c1, c2, c3, c4⟩ :=
          collect_inv oracle now kw f.url m (es.take (m * 3)) [] urls
            (by intro a ha; cases ha) (by simp)
        have c4a : ∀ b ∈ (collectEntries oracle now kw f.url m
            (es.take (m * 3)) [] urls).1, b.url ∉ urls := by
          intro b hb2
          rcases c4 b hb2 with h | h
          · cases h
          · exact h
        have hqsub : ∀ b ∈ (List.insertionSort dateGE (collectEntries oracle now kw f.url m
            (es.take (m * 3)) [] urls).1).take m,
            b ∈ (collectEntries oracle now kw f.url m (es.take (m * 3)) [] urls).1 := by
          intro b hb2
          exact (List.mem_insertionSort dateGE).mp
            ((List.take_sublist _ _).mem hb2)
        have hqnodup : (((List.insertionSort dateGE (collectEntries oracle now kw f.url m
            (es.take (m * 3)) [] urls).1).take m).map NewsItem.url).Nodup := by
          refine List.Nodup.sublist
            (List.Sublist.map NewsItem.url (List.take_sublist _ _)) ?_
          refine ((List.perm_insertionSort dateGE _).map NewsItem.url).nodup_iff.mpr c3
        have hpre1 : ∀ a ∈ acc ++ (List.insertionSort dateGE (collectEntries oracle now kw f.url m
            (es.take (m * 3)) [] urls).1).take m,
            a.url ∈ (collectEntries oracle now kw f.url m (es.take (m * 3)) [] urls).2 := by
          intro a ha
          rcases List.mem_append.mp ha with ha | ha
          · exact c1 _ (h1 a ha)
          · exact c2 a (hqsub a ha)
        have hpre2 : ((acc ++ (List.insertionSort dateGE (collectEntries oracle now kw f.url m
            (es.take (m * 3)) [] urls).1).take m).map NewsItem.url).Nodup := by
          rw [List.map_append]
          refine List.Nodup.append h2 hqnodup ?_
          intro x hx hy
          rcases List.mem_map.mp hx with ⟨a, ha, rfl⟩
          rcases List.mem_map.mp hy with ⟨b, hb2, hab⟩
          have hbu : b.url ∉ urls := c4a b (hqsub b hb2)
          exact hbu (hab ▸ h1 a ha)
        obtain ⟨g1, g2, g3, g4⟩ := ih _ _ hpre1 hpre2
        refine ⟨fun u hu => g1 u (c1 u hu), g2, g3, ?_⟩
        intro a ha
        rcases g4 a ha with hin | hnin
        · rcases List.mem_append.mp hin with h | h
          · exact Or.inl h
          · exact Or.inr (c4a a (hqsub a h))
        · exact Or.inr (fun hc => hnin (c1 _ hc))

/-- The invariant of one whole scrape_news call: the horizon only grows,
every returned item's URL is recorded in the outgoing horizon, returned
URLs are pairwise distinct, and no returned URL was in the incoming
horizon. -/
theorem scrape_inv (oracle : HeadOracle) (now : Nat) (kw : List Str)
    (feeds : List Feed) (m : Nat) (urls : List Str) :
    (∀ u ∈ urls, u ∈ (scrapeNews oracle now kw feeds m urls).2) ∧
    (∀ a ∈ (scrapeNews oracle now kw feeds m urls).1,
        a.url ∈ (scrapeNews oracle now kw feeds m urls).2) ∧
    ((scrapeNews oracle now kw feeds m urls).1.map NewsItem.url).Nodup ∧
    (∀ a ∈ (scrapeNews oracle now kw feeds m urls).1, a.url ∉ urls) := by
  obtain ⟨g1, g2, g3, g4⟩ :=
    loop_inv oracle now kw m (m * kw.length) feeds [] urls
      (by intro a ha; cases ha) (by simp)
  have hsub : ∀ b ∈ (scrapeNews oracle now kw feeds m urls).1,
      b ∈ (scrapeLoop oracle now kw m (m * kw.length) feeds [] urls).1 := by
    intro b hb
    exact (List.mem_insertionSort dateGE).mp ((List.take_sublist _ _).mem hb)
  refine ⟨g1, fun a ha => g2 a (hsub a ha), ?_, ?_⟩
  · refine List.Nodup.sublist
      (List.Sublist.map NewsItem.url (List.take_sublist _ _)) ?_
    exact ((List.perm_insertionSort dateGE _).map NewsItem.url).nodup_iff.mpr g3
  · intro a ha
    rcases g4 a (hsub a ha) with h | h
    · cases h
    · exact h

/-- The final horizon of a call sequence contains the incoming horizon. -/
theorem runCalls_mono : ∀ (cs : List CallArgs) (st : List Str),
    ∀ u ∈ st, u ∈ (runCalls st cs).2 := by
  intro cs
  induction cs with
  | nil => intro st u hu; exact hu
  | cons c cs ih =>
    intro st u hu
    exact ih _ u ((scrape_inv c.oracle c.now c.keywords c.feeds c.maxResults st).1 u hu)

/-- Every URL emitted by any call of a sequence is in the final horizon. -/
theorem runCalls_emitted : ∀ (cs : List CallArgs) (st : List Str),
    ∀ r ∈ (runCalls st cs).1, ∀ a ∈ r, a.url ∈ (runCalls st cs).2 := by
  intro cs
  induction cs with
  | nil => intro st r hr; cases hr
  | cons c cs ih =>
    intro st r hr a ha
    rcases List.mem_cons.mp hr with rfl | hr2
    · exact runCalls_mono cs _ _
        ((scrape_inv c.oracle c.now c.keywords c.feeds c.maxResults st).2.1 a ha)
    · exact ih _ r hr2 a ha

/-- No call of a sequence ever emits a URL that was already in the
horizon when the sequence started. -/
theorem runCalls_fresh : ∀ (cs : List CallArgs) (st : List Str),
    ∀ r ∈ (runCalls st cs).1, ∀ a ∈ r, a.url ∉ st := by
  intro cs
  induction cs with
  | nil => intro st r hr; cases hr
  | cons c cs ih =>
    intro st r hr a ha
    rcases List.mem_cons.mp hr with rfl | hr2
    · exact (scrape_inv c.oracle c.now c.keywords c.feeds c.maxResults st).2.2.2 a ha
    · intro hc
      exact ih _ r hr2 a ha
        ((scrape_inv c.oracle c.now c.keywords c.feeds c.maxResults st).1 _ hc)

/-- Pairwise URL disjointness of the result lists of a call sequence. -/
theorem runCalls_pairwise : ∀ (cs : List CallArgs) (st : List Str),
    List.Pairwise (fun r1 r2 => ∀ a ∈ r1, ∀ b ∈ r2, a.url ≠ b.url)
      (runCalls st cs).1 := by
  intro cs
  induction cs with
  | nil => intro st; exact List.Pairwise.nil
  | cons c cs ih =>
    intro st
    refine List.Pairwise.cons ?_ (ih _)
    intro r hr a ha b hb heq
    have hbin : b.url ∉ (scrapeNews c.oracle c.now c.keywords c.feeds c.maxResults st).2 :=
      runCalls_fresh cs _ r hr b hb
    have hain : a.url ∈ (scrapeNews c.oracle c.now c.keywords c.feeds c.maxResults st).2 :=
      (scrape_inv c.oracle c.now c.keywords c.feeds c.maxResults st).2.1 a ha
    exact hbin (heq ▸ hain)

/-- C1: over any sequence of scrape_news calls on one fresh NewsScraper
instance (no clear_cache in between), every returned list has pairwise
distinct item URLs, and no URL returned by one call is returned again by
any later call. -/
theorem claim_C1_dedup (calls : List CallArgs) :
    (∀ r ∈ (runCalls [] calls).1, (r.map NewsItem.url).Nodup) ∧
    List.Pairwise (fun r1 r2 => ∀ a ∈ r1, ∀ b ∈ r2, a.url ≠ b.url)
      (runCalls [] calls).1 := by
  refine ⟨?_, runCalls_pairwise calls []⟩
  suffices h : ∀ (cs : List CallArgs) (st : List Str),
      ∀ r ∈ (runCalls st cs).1, (r.map NewsItem.url).Nodup by
    exact h calls []
  intro cs
  induction cs with
  | nil => intro st r hr; cases hr
  | cons c cs ih =>
    intro st r hr
    rcases List.mem_cons.mp hr with rfl | hr2
    · exact (scrape_inv c.oracle c.now c.keywords c.feeds c.maxResults st).2.2.1
    · exact ih _ r hr2

/-- A network oracle that always fails, for concrete runs. -/
def oracle0 : HeadOracle := fun _ => none

/-- Concrete entry: matching title, URL u1, date 5. -/
def entA : RawEntry :=
  { title := some "alpha one ok!!".toList
    link := some "u1".toList
    published := some "d".toList
    published_parsed := some 5 }

/-- Concrete entry: matching title, URL u2, date 9. -/
def entB : RawEntry :=
  { title := some "alpha two ok!!".toList
    link := some "u2".toList
    published := some "d".toList
    published_parsed := some 9 }

/-- Concrete entry: matching title, URL u3, date 1. -/
def entC : RawEntry :=
  { title := some "alpha three ok".toList
    link := some "u3".toList
    published := some "d".toList
    published_parsed := some 1 }

/-- Concrete feed holding entA. -/
def feedA : Feed := ⟨"http://x.com/rss".toList, some [entA]⟩

/-- Concrete feed holding entB and entC. -/
def feedB : Feed := ⟨"http://y.com/rss".toList, some [entB, entC]⟩

/-- The news item produced from entA inside feedA. -/
def itemA : NewsItem :=
  { title := "alpha one ok!!".toList
    summary := placeholderSummary
    url := "u1".toList
    keyword := "a".toList
    published_date := 5
    source := "x.com".toList
    image_url := none
    scraped_at := 0 }

/-- One concrete scrape_news call for witnesses. -/
def callA : CallArgs := ⟨oracle0, 0, ["a".toList], [feedA], 2⟩

/-- Witness for C1 at a concrete call sequence. -/
theorem claim_C1_witness : (([itemA] : List NewsItem).map NewsItem.url).Nodup :=
  (claim_C1_dedup [callA]).1 [itemA] (by decide)

/-- C7 (amended): the dedup horizon contains the URL of every item
emitted by any earlier scrape_news call of the sequence; it can be a
strict superset of the emitted URLs, because the final truncation can
drop items whose URLs were already recorded. -/
theorem claim_C7_amended (calls : List CallArgs) :
    ∀ r ∈ (runCalls [] calls).1, ∀ a ∈ r, a.url ∈ (runCalls [] calls).2 :=
  runCalls_emitted calls []

/-- Witness for the amended C7 at a concrete call sequence. -/
theorem claim_C7_witness : "u1".toList ∈ (runCalls [] [callA]).2 :=
  claim_C7_amended [callA] [itemA] (by decide) itemA (by decide)

/-- Counterexample to C7 as stated: with keyword list of length one and
max_results 2, feedA yields one item and feedB yields two, so three URLs
enter the horizon but the final truncation to two items drops the oldest;
u3 is in the horizon yet was never emitted. -/
theorem claim_C7_counterexample :
    ("u3".toList ∈ (scrapeNews oracle0 0 ["a".toList] [feedA, feedB] 2 []).2) ∧
    (∀ a ∈ (scrapeNews oracle0 0 ["a".toList] [feedA, feedB] 2 []).1,
      a.url ≠ "u3".toList) := by decide

/-- C8 (amended): the source field of every item built by _process_entry
is the feed URL's netloc with every occurrence of "www." removed (not
only a leading prefix, and the netloc — host and optional port — rather
than a registrable domain). -/
theorem claim_C8_amended (oracle : HeadOracle) (now : Nat) (kw : List Str)
    (furl : Str) (e : RawEntry) (item : NewsItem)
    (h : processEntry oracle now kw furl e = some item) :
    item.source = removeWwwAll (urlparseNetloc furl) := by
  simp only [processEntry] at h
  split at h
  · exact Option.noConfusion h
  · split at h
    · exact Option.noConfusion h
    · split at h
      · exact Option.noConfusion h
      · cases h
        rfl

/-- Concrete entry whose feed URL contains a non-leading www. segment. -/
def entD : RawEntry :=
  { title := some "alpha news ok!".toList
    link := some "u8".toList
    published := some "d".toList
    published_parsed := some 3 }

/-- Feed URL with a www. segment in the middle of the host. -/
def furlD : Str := "http://foo.www.bar.com/rss".toList

/-- The news item produced from entD inside the feed at furlD. -/
def itemD : NewsItem :=
  { title := "alpha news ok!".toList
    summary := placeholderSummary
    url := "u8".toList
    keyword := "a".toList
    published_date := 3
    source := "foo.bar.com".toList
    image_url := none
    scraped_at := 0 }

/-- Witness for the amended C8 at a concrete entry. -/
theorem claim_C8_witness : itemD.source = removeWwwAll (urlparseNetloc furlD) :=
  claim_C8_amended oracle0 0 ["a".toList] furlD entD itemD (by decide)

/-- Counterexample to C8 as stated: for the feed at
http://foo.www.bar.com/rss the emitted item's source is foo.bar.com
(str.replace removed the inner "www."), while the host with only a
leading www. stripped is foo.www.bar.com — and no reading of registrable
domain yields foo.bar.com either. -/
theorem claim_C8_counterexample :
    ((scrapeNews oracle0 0 ["a".toList] [⟨furlD, some [entD]⟩] 1 []).1.map
      NewsItem.source = ["foo.bar.com".toList]) ∧
    specSource furlD = "foo.www.bar.com".toList ∧
    ("foo.bar.com".toList : Str) ≠ "foo.www.bar.com".toList := by decide

/-- Entry with a pre-parsed published tuple but no raw date string. -/
def entE : RawEntry := { published_parsed := some 42 }

/-- Counterexample to C9 as stated: entE carries a pre-parsed published
time of 42 but no raw published/updated/pubDate string, so _parse_date
ignores the tuple and returns the wall-clock time 7. -/
theorem claim_C9_counterexample :
    entE.published = none ∧ entE.updated = none ∧ entE.pubDate = none ∧
    entE.published_parsed = some 42 ∧ parseDate entE 7 = 7 ∧ (7 : Nat) ≠ 42 := by
  decide

/-- C9 (amended): _parse_date uses the published pre-parsed tuple, then
the updated pre-parsed tuple, then the wall-clock time — but only when at
least one raw date string (published, updated or pubDate) is non-empty;
with no truthy raw date string the wall-clock time is returned even when
a pre-parsed tuple is available. -/
theorem claim_C9_amended (e : RawEntry) (now t : Nat) :
    (hasRawDate e = true → e.published_parsed = some t → parseDate e now = t) ∧
    (hasRawDate e = true → e.published_parsed = none → e.updated_parsed = some t →
      parseDate e now = t) ∧
    (hasRawDate e = true → e.published_parsed = none → e.updated_parsed = none →
      parseDate e now = now) ∧
    (hasRawDate e = false → parseDate e now = now) := by
  refine ⟨?_, ?_, ?_, ?_⟩
  · intro h1 h2; simp [parseDate, h1, h2]
  · intro h1 h2 h3; simp [parseDate, h1, h2, h3]
  · intro h1 h2 h3; simp [parseDate, h1, h2, h3]
  · intro h1; simp [parseDate, h1]

/-- Entry with both a raw published string and a pre-parsed tuple. -/
def entF : RawEntry :=
  { published := some "d".toList
    published_parsed := some 42 }

/-- Witness for the amended C9 at a concrete entry. -/
theorem claim_C9_witness : parseDate entF 7 = 42 :=
  (claim_C9_amended entF 7 42).1 (by decide) rfl

/-- C5: when _process_entry accepts an entry, the item's keyword field is
the earliest keyword of the caller-supplied list whose lowercased form
occurs in the lowercased title-plus-cleaned-body text, and an entry
matching no keyword is rejected. -/
theorem claim_C5_keyword_precedence (oracle : HeadOracle) (now : Nat)
    (kw : List Str) (furl : Str) (e : RawEntry) :
    (∀ item, processEntry oracle now kw furl e = some item →
      ∃ l1 l2, kw = l1 ++ item.keyword :: l2 ∧
        hasSub (listToLower item.keyword) (combinedText e) = true ∧
        ∀ k ∈ l1, hasSub (listToLower k) (combinedText e) = false) ∧
    ((∀ k ∈ kw, hasSub (listToLower k) (combinedText e) = false) →
      processEntry oracle now kw furl e = none) := by
  constructor
  · intro item h
    simp only [processEntry] at h
    split at h
    · exact Option.noConfusion h
    · split at h
      · exact Option.noConfusion h
      · split at h
        · exact Option.noConfusion h
        · rename_i k heq
          cases h
          obtain ⟨l1, l2, hsp, hp, hprev⟩ := find?_eq_some_split heq
          exact ⟨l1, l2, hsp, hp, hprev⟩
  · intro hall
    have hfind : kw.find? (fun k => hasSub (listToLower k) (combinedText e)) = none :=
      List.find?_eq_none.mpr (fun x hx => by simp [hall x hx])
    simp only [processEntry, hfind, ite_self]

/-- Keyword list with alpha before beta. -/
def kwsAB : List Str := ["alpha".toList, "beta".toList]

/-- Entry whose text contains both alpha and beta. -/
def entG : RawEntry :=
  { title := some "zz alpha beta news".toList
    link := some "u9".toList }

/-- Entry whose text contains neither alpha nor beta. -/
def entH : RawEntry :=
  { title := some "zz gamma only news".toList
    link := some "uA".toList }

/-- The news item produced from entG. -/
def itemG : NewsItem :=
  { title := "zz alpha beta news".toList
    summary := placeholderSummary
    url := "u9".toList
    keyword := "alpha".toList
    published_date := 0
    source := "x.com".toList
    image_url := none
    scraped_at := 0 }

/-- Witness for C5: both-keyword entry gets alpha, no-keyword entry is
rejected. -/
theorem claim_C5_witness :
    (∃ l1 l2, kwsAB = l1 ++ itemG.keyword :: l2 ∧
      hasSub (listToLower itemG.keyword) (combinedText entG) = true ∧
      ∀ k ∈ l1, hasSub (listToLower k) (combinedText entG) = false) ∧
    processEntry oracle0 0 kwsAB ("http://x.com/rss".toList) entH = none :=
  ⟨(claim_C5_keyword_precedence oracle0 0 kwsAB ("http://x.com/rss".toList) entG).1
      itemG (by decide),
   (claim_C5_keyword_precedence oracle0 0 kwsAB ("http://x.com/rss".toList) entH).2
      (by decide)⟩

/-- Successful validation forces a non-empty URL with an http or https
protocol. -/
theorem isValid_elim (oracle : HeadOracle) (u : Str)
    (h : isValidImageUrl oracle u = true) :
    (u != []) = true ∧
    (("http://".toList).isPrefixOf u || ("https://".toList).isPrefixOf u) = true := by
  unfold isValidImageUrl at h
  split at h
  · rename_i hc
    rw [Bool.and_eq_true] at hc
    exact hc
  · cases h

/-- A URL that validates starts with a protocol, so the relative-URL
repair leaves it unchanged. -/
theorem valid_repair (oracle : HeadOracle) (e : RawEntry) (u : Str)
    (h : isValidImageUrl oracle u = true) : repairUrl e u = u := by
  have hp := (isValid_elim oracle u h).2
  rw [Bool.or_eq_true] at hp
  rcases hp with h1 | h1
  · obtain ⟨t, rfl⟩ := List.isPrefixOf_iff_prefix.mp h1
    simp [repairUrl,
      show ((("//".toList).isPrefixOf ("http://".toList ++ t)) = false) from rfl,
      show (((['/'] : Str).isPrefixOf ("http://".toList ++ t)) = false) from rfl]
  · obtain ⟨t, rfl⟩ := List.isPrefixOf_iff_prefix.mp h1
    simp [repairUrl,
      show ((("//".toList).isPrefixOf ("https://".toList ++ t)) = false) from rfl,
      show (((['/'] : Str).isPrefixOf ("https://".toList ++ t)) = false) from rfl]

/-- C6: the media extractor tries the five image sources in the fixed
priority order and the first non-empty candidate wins, the chosen
candidate then being validated: an image-typed enclosure beats everything
(in particular an embedded img tag), the first media:thumbnail is used
only with no image enclosure, an image-typed media:content only after
those, the first img src of the body HTML next, and the alternate
full-content HTML last; the extractor is a total function into Option, so
an internal fault yields no image rather than an exception. -/
theorem claim_C6_image_priority (oracle : HeadOracle) (e : RawEntry) :
    (∀ enc h, findImageEnclosure e.enclosures = some enc → enc.href = some h →
      isValidImageUrl oracle h = true → extractImage oracle e = some h) ∧
    (∀ th ths v, findImageEnclosure e.enclosures = none →
      e.media_thumbnail = th :: ths → th.url = some v →
      isValidImageUrl oracle v = true → extractImage oracle e = some v) ∧
    (∀ mc v, findImageEnclosure e.enclosures = none → e.media_thumbnail = [] →
      findImageMedia e.media_content = some mc → mc.url = some v →
      isValidImageUrl oracle v = true → extractImage oracle e = some v) ∧
    (∀ cap, findImageEnclosure e.enclosures = none → e.media_thumbnail = [] →
      findImageMedia e.media_content = none → findFirstImg (rawBody e) = some cap →
      isValidImageUrl oracle cap = true → extractImage oracle e = some cap) ∧
    (∀ cap, findImageEnclosure e.enclosures = none → e.media_thumbnail = [] →
      findImageMedia e.media_content = none → rawBody e = [] →
      method5core e.content = Except.ok (some cap) →
      isValidImageUrl oracle cap = true → extractImage oracle e = some cap) := by
  refine ⟨?_, ?_, ?_, ?_, ?_⟩
  · intro enc h h1 h2 hval
    obtain ⟨hne, _⟩ := isValid_elim oracle h hval
    have hrep := valid_repair oracle e h hval
    simp [extractImage, extractImageE, method1, method2, method3, method4, method5,
      h1, h2, hne, hrep, hval]
  · intro th ths v h1 h2 h3 hval
    obtain ⟨hne, _⟩ := isValid_elim oracle v hval
    have hrep := valid_repair oracle e v hval
    simp [extractImage, extractImageE, method1, method2, method3, method4, method5,
      h1, h2, h3, hne, hrep, hval]
  · intro mc v h1 h2 h3 h4 hval
    obtain ⟨hne, _⟩ := isValid_elim oracle v hval
    have hrep := valid_repair oracle e v hval
    simp [extractImage, extractImageE, method1, method2, method3, method4, method5,
      h1, h2, h3, h4, hne, hrep, hval]
  · intro cap h1 h2 h3 h4 hval
    obtain ⟨hne, _⟩ := isValid_elim oracle cap hval
    have hrep := valid_repair oracle e cap hval
    have hbody : (rawBody e != []) = true := by
      refine bne_iff_ne.mpr ?_
      intro hh
      rw [hh] at h4
      exact Option.noConfusion h4
    simp [extractImage, extractImageE, method1, method2, method3, method4, method5,
      h1, h2, h3, h4, hbody, hne, hrep, hval]
  · intro cap h1 h2 h3 h4 h5 hval
    obtain ⟨hne, _⟩ := isValid_elim oracle cap hval
    have hrep := valid_repair oracle e cap hval
    simp [extractImage, extractImageE, method1, method2, method3, method4, method5,
      Except.map, h1, h2, h3, h4, h5, hne, hrep, hval]

/-- Entry carrying both an image enclosure and an embedded img tag. -/
def entI : RawEntry :=
  { summary := some "<img src=\"http://b.com/q.png\"> hello".toList
    enclosures := [⟨some "image/jpeg".toList, some "http://a.com/p.jpg".toList⟩] }

/-- Witness for C6: with both an enclosure image and an embedded img tag
present, the enclosure URL wins. -/
theorem claim_C6_witness : extractImage oracle0 entI = some ("http://a.com/p.jpg".toList) :=
  (claim_C6_image_priority oracle0 entI).1
    ⟨some "image/jpeg".toList, some "http://a.com/p.jpg".toList⟩
    ("http://a.com/p.jpg".toList) (by decide) rfl (by decide)

/-- A list whose head fails the predicate is untouched by dropWhile. -/
theorem dropWhile_eq_self_of_head {α : Type} {p : α → Bool} :
    ∀ (l : List α), (∀ c, l.head? = some c → p c = false) → l.dropWhile p = l := by
  intro l h
  cases l with
  | nil => rfl
  | cons a t => simp [List.dropWhile_cons, h a rfl]

/-- The head surviving a dropWhile fails the predicate. -/
theorem head?_dropWhile {α : Type} {p : α → Bool} :
    ∀ (l : List α) (c : α), (l.dropWhile p).head? = some c → p c = false := by
  intro l
  induction l with
  | nil => intro c h; cases h
  | cons a t ih =>
    intro c h
    rw [List.dropWhile_cons] at h
    by_cases hp : p a = true
    · rw [if_pos hp] at h
      exact ih c h
    · rw [if_neg hp] at h
      cases h
      simpa using hp

/-- The last character of a stripped string is never whitespace. -/
theorem pyStrip_getLast (s : Str) (c : Char)
    (h : (pyStrip s).getLast? = some c) : isPySpace c = false := by
  unfold pyStrip at h
  rw [List.getLast?_reverse] at h
  exact head?_dropWhile _ c h

/-- Stripping is the identity on a string whose first and last characters
are not whitespace. -/
theorem pyStrip_eq_self (u : Str)
    (hh : ∀ c, u.head? = some c → isPySpace c = false)
    (hl : ∀ c, u.getLast? = some c → isPySpace c = false) : pyStrip u = u := by
  unfold pyStrip
  rw [dropWhile_eq_self_of_head u hh]
  rw [dropWhile_eq_self_of_head u.reverse
    (fun c hc => hl c (by rwa [List.head?_reverse] at hc))]
  exact List.reverse_reverse u

/-- Substring containment survives prepending. -/
theorem hasSub_append_right (pat : Str) :
    ∀ (x y : Str), hasSub pat y = true → hasSub pat (x ++ y) = true := by
  intro x
  induction x with
  | nil => intro y h; simpa using h
  | cons c x ih =>
    intro y h
    rw [List.cons_append]
    simp only [hasSub]
    rw [ih y h]
    simp

/-- The output of the protocol step always carries an http or https
protocol. -/
theorem withProto_proto (s : Str) :
    (("http://".toList).isPrefixOf (withProto s) ||
      ("https://".toList).isPrefixOf (withProto s)) = true := by
  simp only [withProto]
  by_cases hc : (("http://".toList).isPrefixOf (pyStrip s) ||
      ("https://".toList).isPrefixOf (pyStrip s)) = true
  · rw [if_pos hc]
    exact hc
  · rw [if_neg hc, Bool.or_eq_true]
    right
    exact List.isPrefixOf_iff_prefix.mpr (List.prefix_append _ _)

/-- A string with an http or https protocol starts with the letter h. -/
theorem proto_head (u : Str)
    (h : (("http://".toList).isPrefixOf u || ("https://".toList).isPrefixOf u) = true) :
    u.head? = some 'h' := by
  rw [Bool.or_eq_true] at h
  rcases h with h | h <;> obtain ⟨t, rfl⟩ := List.isPrefixOf_iff_prefix.mp h <;> rfl

/-- A protocol prefix survives appending. -/
theorem protoBool_append (u v : Str)
    (h : (("http://".toList).isPrefixOf u || ("https://".toList).isPrefixOf u) = true) :
    (("http://".toList).isPrefixOf (u ++ v) ||
      ("https://".toList).isPrefixOf (u ++ v)) = true := by
  rw [Bool.or_eq_true] at h ⊢
  rcases h with h | h
  · exact Or.inl (List.isPrefixOf_iff_prefix.mpr
      ((List.isPrefixOf_iff_prefix.mp h).trans (List.prefix_append _ _)))
  · exact Or.inr (List.isPrefixOf_iff_prefix.mpr
      ((List.isPrefixOf_iff_prefix.mp h).trans (List.prefix_append _ _)))

/-- The last character of the protocol step's output is never
whitespace. -/
theorem withProto_getLast (s : Str) :
    ∀ c, (withProto s).getLast? = some c → isPySpace c = false := by
  intro c hc
  simp only [withProto] at hc
  by_cases hb : (("http://".toList).isPrefixOf (pyStrip s) ||
      ("https://".toList).isPrefixOf (pyStrip s)) = true
  · rw [if_pos hb] at hc
    exact pyStrip_getLast s c hc
  · rw [if_neg hb] at hc
    cases hps : pyStrip s with
    | nil =>
      rw [hps, List.append_nil] at hc
      have h2 : ("https://".toList).getLast? = some '/' := rfl
      rw [h2] at hc
      injection hc with h3
      rw [← h3]
      rfl
    | cons d ds =>
      rw [hps, List.getLast?_append_of_ne_nil _ (by simp)] at hc
      rw [← hps] at hc
      exact pyStrip_getLast s c hc

/-- A URL that is already stripped, carries a protocol and looks like a
feed is a fixed point of normalize_rss_url. -/
theorem nrm_fixpoint (u : Str)
    (h1 : (("http://".toList).isPrefixOf u || ("https://".toList).isPrefixOf u) = true)
    (h2 : feedLike u = true) (h3 : pyStrip u = u) : normalize_rss_url u = u := by
  simp only [normalize_rss_url, withProto, h3]
  rw [if_pos h1, if_pos h2]

/-- Appending a piece that contains rss keeps the URL feed-like. -/
theorem feedLike_tail (x suf : Str)
    (hs : hasSub ("rss".toList) (listToLower suf) = true) :
    feedLike (x ++ suf) = true := by
  have h : hasSub ("rss".toList) (listToLower (x ++ suf)) = true := by
    unfold listToLower
    rw [List.map_append]
    exact hasSub_append_right _ _ _ hs
  simp only [feedLike]
  rw [Bool.or_eq_true, Bool.or_eq_true]
  exact Or.inl (Or.inl h)

/-- C10: normalize_rss_url is idempotent — every output is stripped,
starts with http or https and contains rss, feed or xml, so a second
application returns it unchanged. -/
theorem claim_C10_idempotent (s : Str) :
    normalize_rss_url (normalize_rss_url s) = normalize_rss_url s := by
  have hcases : (normalize_rss_url s = withProto s ∧ feedLike (withProto s) = true) ∨
      normalize_rss_url s = withProto s ++ "rss".toList ∨
      normalize_rss_url s = withProto s ++ "/rss".toList := by
    simp only [normalize_rss_url]
    by_cases hf : feedLike (withProto s) = true
    · left
      exact ⟨by rw [if_pos hf], hf⟩
    · right
      by_cases hsuf : (['/'] : Str).isSuffixOf (withProto s) = true
      · left
        rw [if_neg hf, if_pos hsuf]
      · right
        rw [if_neg hf, if_neg hsuf]
  have hproto : (("http://".toList).isPrefixOf (normalize_rss_url s) ||
      ("https://".toList).isPrefixOf (normalize_rss_url s)) = true := by
    rcases hcases with ⟨he, _⟩ | he | he <;> rw [he]
    · exact withProto_proto s
    · exact protoBool_append _ _ (withProto_proto s)
    · exact protoBool_append _ _ (withProto_proto s)
  have hfeed : feedLike (normalize_rss_url s) = true := by
    rcases hcases with ⟨he, hf⟩ | he | he <;> rw [he]
    · exact hf
    · exact feedLike_tail _ _ (by decide)
    · exact feedLike_tail _ _ (by decide)
  have hstrip : pyStrip (normalize_rss_url s) = normalize_rss_url s := by
    refine pyStrip_eq_self _ ?_ ?_
    · intro c hc
      rw [proto_head _ hproto] at hc
      injection hc with h2
      rw [← h2]
      rfl
    · intro c hc
      rcases hcases with ⟨he, _⟩ | he | he <;> rw [he] at hc
      · exact withProto_getLast s c hc
      · rw [List.getLast?_append_of_ne_nil _ (by simp)] at hc
        have h2 : ("rss".toList).getLast? = some 's' := rfl
        rw [h2] at hc
        injection hc with h3
        rw [← h3]
        rfl
      · rw [List.getLast?_append_of_ne_nil _ (by simp)] at hc
        have h2 : ("/rss".toList).getLast? = some 's' := rfl
        rw [h2] at hc
        injection hc with h3
        rw [← h3]
        rfl
  exact nrm_fixpoint _ hproto hfeed hstrip
